import Mathlib

/-!
Verification of the WebSocket subscription multiplexing engine of this
repository: a shallow embedding of `connectEpic` and its inner streams
(`multiplexSubscriptions$`, `unsubscribeOnTimeout$`, `unsubscribeOnNoResponse$`,
`withCache$`, the rxjs `deserializer`) together with proofs about the
connection guard, the timeout races, multiplexing, error handling and the
cache writer.

Streams are modelled as lists of events in arrival order; where timing
matters an event is a pair of its arrival time (in ms, as a natural number)
and its payload.  Provider-supplied handler capabilities (`isError`,
`subsFromMessage`, `filter`, `toResponse`, `subscribe`) and the key
derivation `getSubsId` are abstract function parameters, since they are
collaborator inputs to the engine.
-/

namespace WsEpics

variable {α π μ σ ρ ι : Type}

/-! ## JavaScript value truthiness

The source uses the JavaScript idiom `x || \x7b\x7d` (default to an empty
object) followed by `if (!x)` checks, so we embed just enough of JS
truthiness to translate those lines faithfully: `undefined` is falsy, any
object (including the empty object) is truthy. -/

inductive JVal (ι : Type) where
  | undef
  | emptyObj
  | obj (i : ι)
  deriving DecidableEq, Repr

/-- JS truthiness of the values that can appear in the embedded code. -/
def JVal.truthy : JVal ι → Bool
  | .undef => false
  | .emptyObj => true
  | .obj _ => true

/-- The JS `a || b` operator restricted to the values we model. -/
def jsOr (a b : JVal ι) : JVal ι := if a.truthy then a else b

/-- An optional lookup result seen as a JS value: a missing entry is
`undefined`, a present input is an object. -/
def jvalOf : Option ι → JVal ι
  | none => .undef
  | some i => .obj i

/-! ## The rxjs deserializer (source lines 49 - 56)

`deserializer` tries `JSON.parse(message.data)`; on a parse exception it
logs a debug line and returns the raw message object instead of throwing.
JSON parsing is abstracted as a fallible `parse` function; the returned
`Bool` records whether the invalid-format debug line was logged. -/

inductive Deserialized (μ ρ : Type) where
  | parsed (v : ρ)
  | raw (m : μ)
  deriving DecidableEq, Repr

/-- Embedding of `deserializer`: `parse` stands for `JSON.parse`, `dataOf`
extracts the `data` field of the raw socket message. -/
def deserializer (parse : String → Option ρ) (dataOf : μ → String) (m : μ) :
    Deserialized μ ρ × Bool :=
  match parse (dataOf m) with
  | some v => (.parsed v, false)
  | none => (.raw m, true)

/-- C10: the WebSocket deserializer is total over incoming raw messages —
whenever the data field of a message is not parseable JSON it catches the
parse exception, logs a debug line, and returns the raw message object
instead of throwing, so a malformed provider message never errors the
connection stream. -/
theorem c10_deserializer_total (parse : String → Option ρ) (dataOf : μ → String) (m : μ) :
    (∃ v, parse (dataOf m) = some v ∧ deserializer parse dataOf m = (.parsed v, false)) ∨
      (parse (dataOf m) = none ∧ deserializer parse dataOf m = (.raw m, true)) := by
  cases h : parse (dataOf m) with
  | none => exact Or.inr ⟨rfl, by simp [deserializer, h]⟩
  | some v => exact Or.inl ⟨v, rfl, by simp [deserializer, h]⟩

/-! ## Connection manager (source lines 58 - 69)

`connectEpic` filters `connect` actions and opens a new socket only when the
guard passes.  The guard reads `state.ws.connections`; the reducer that
maintains that state lives outside the files under verification, so it is
modelled from the spec below.  The guard itself is a line-by-line
translation of the source. -/

structure ConnState where
  active : Nat → Bool
  connecting : Nat → Nat

/-- Embedding of the guard in `connectEpic` (source lines 63 - 67):
`isActiveConnection = !!state.ws.connections.active[key]`,
`isConnecting = state.ws.connections.connecting[key] > 1`, and the filter
passes when neither holds. -/
def connectGuard (s : ConnState) (k : Nat) : Bool :=
  let isActiveConnection := s.active k
  let isConnecting := decide (s.connecting k > 1)
  !isActiveConnection && !isConnecting

inductive ConnEvent where
  | connectE (k : Nat)
  | connectedE (k : Nat)
  | disconnectedE (k : Nat)

/-- Modelled from the spec: the ws reducer maintaining
`state.ws.connections.active` / `state.ws.connections.connecting` is not
among the files under verification (only its consumer `connectEpic` is).
Per the spec the Connection Manager "tracks active/connecting state": a
`connect` request increments the connecting count for its key, `connected`
marks the key active (its pending opens are no longer connecting), and
`disconnected` clears the active mark.  Redux runs reducers before epics
observe `state$`, so the guard sees the state with the current `connect`
already counted. -/
def reduceConn (s : ConnState) : ConnEvent → ConnState
  | .connectE k =>
      { s with connecting := fun k2 => if k2 = k then s.connecting k2 + 1 else s.connecting k2 }
  | .connectedE k =>
      { active := fun k2 => if k2 = k then true else s.active k2,
        connecting := fun k2 => if k2 = k then 0 else s.connecting k2 }
  | .disconnectedE k =>
      { s with active := fun k2 => if k2 = k then false else s.active k2 }

/-- The reduced state together with a ghost count of physical sockets
currently open per connection key. -/
structure ConnSys where
  st : ConnState
  opens : Nat → Nat

/-- One step of the connection manager: the action is reduced into the
state, then (for `connect`) the epic opens a socket only if `connectGuard`
passes; `disconnected` corresponds to the socket close event. -/
def stepConn (s : ConnSys) (ev : ConnEvent) : ConnSys :=
  match ev with
  | .connectE k =>
      if connectGuard (reduceConn s.st (.connectE k)) k then
        { st := reduceConn s.st (.connectE k),
          opens := fun k2 => if k2 = k then s.opens k2 + 1 else s.opens k2 }
      else
        { st := reduceConn s.st (.connectE k), opens := s.opens }
  | .connectedE k => { st := reduceConn s.st (.connectedE k), opens := s.opens }
  | .disconnectedE k =>
      { st := reduceConn s.st (.disconnectedE k),
        opens := fun k2 => if k2 = k then 0 else s.opens k2 }

def initConnSys : ConnSys :=
  { st := { active := fun _ => false, connecting := fun _ => 0 }, opens := fun _ => 0 }

def runConn (tr : List ConnEvent) : ConnSys := tr.foldl stepConn initConnSys

/-- Invariant tying the ghost socket count to the tracked state: at most one
socket is open per key, and an open socket is accounted for as active or as
connecting. -/
def ConnInv (s : ConnSys) : Prop :=
  ∀ k, s.opens k ≤ 1 ∧ (s.opens k = 1 → s.st.active k = true ∨ 1 ≤ s.st.connecting k)

lemma connInv_step {s : ConnSys} (h : ConnInv s) (ev : ConnEvent) : ConnInv (stepConn s ev) := by
  cases ev with
  | connectE k0 =>
    simp only [stepConn]
    by_cases hg : connectGuard (reduceConn s.st (.connectE k0)) k0 = true
    · rw [if_pos hg]
      have hg' : s.st.active k0 = false ∧ s.st.connecting k0 = 0 := by
        simp only [connectGuard, reduceConn, Bool.and_eq_true, Bool.not_eq_true',
          decide_eq_false_iff_not, not_lt] at hg
        refine ⟨hg.1, ?_⟩
        have := hg.2
        simp only [if_true] at this
        omega
      intro k
      by_cases hk : k = k0
      · subst hk
        have hop : s.opens k = 0 := by
          have h1 := (h k).1
          rcases Nat.lt_or_ge (s.opens k) 1 with h2 | h2
          · omega
          · exfalso
            have h3 : s.opens k = 1 := le_antisymm h1 h2
            rcases (h k).2 h3 with h4 | h4
            · rw [hg'.1] at h4; cases h4
            · omega
        refine ⟨by simp [hop], fun _ => Or.inr ?_⟩
        simp [reduceConn]
      · refine ⟨by simpa [hk] using (h k).1, fun h1 => ?_⟩
        have h1' : s.opens k = 1 := by simpa [hk] using h1
        have h2 := (h k).2 h1'
        simpa [reduceConn, hk] using h2
    · rw [if_neg hg]
      intro k
      refine ⟨(h k).1, fun h1 => ?_⟩
      rcases (h k).2 h1 with h2 | h2
      · left; simpa [reduceConn] using h2
      · right
        simp only [reduceConn]
        by_cases hk : k = k0
        · subst hk
          rw [if_pos rfl]
          omega
        · simpa [hk] using h2
  | connectedE k0 =>
    intro k
    simp only [stepConn]
    refine ⟨(h k).1, fun h1 => ?_⟩
    by_cases hk : k = k0
    · left; simp [reduceConn, hk]
    · have h1' : s.opens k = 1 := h1
      have h2 := (h k).2 h1'
      simpa [reduceConn, hk] using h2
  | disconnectedE k0 =>
    intro k
    simp only [stepConn]
    by_cases hk : k = k0
    · refine ⟨by simp [hk], fun h1 => ?_⟩
      exfalso
      simp [hk] at h1
    · refine ⟨by simpa [hk] using (h k).1, fun h1 => ?_⟩
      have h1' : s.opens k = 1 := by simpa [hk] using h1
      have h2 := (h k).2 h1'
      simpa [reduceConn, hk] using h2

lemma connInv_foldl (tr : List ConnEvent) :
    ∀ s : ConnSys, ConnInv s → ConnInv (tr.foldl stepConn s) := by
  induction tr with
  | nil => intro s hs; exact hs
  | cons ev rest ih => intro s hs; exact ih _ (connInv_step hs ev)

lemma connInv_run (tr : List ConnEvent) : ConnInv (runConn tr) := by
  refine connInv_foldl tr initConnSys ?_
  intro k
  simp [initConnSys]

/-- C3: for every `connect` action, `connectEpic` opens a new WebSocket only
if the state shows neither an active connection nor an in-progress
(connecting) connection for that key — the guard, applied after the reducer
has counted the current request, passes exactly when the key was inactive
and had no other connect in progress — so along every event trace at most
one physical socket is open per connection key. -/
theorem c3_connection_guard (tr : List ConnEvent) (k : Nat) :
    (runConn tr).opens k ≤ 1 ∧
      ∀ s : ConnState,
        connectGuard (reduceConn s (.connectE k)) k = (!s.active k && s.connecting k == 0) := by
  constructor
  · exact ((connInv_run tr) k).1
  · intro s
    simp only [connectGuard, reduceConn, if_pos rfl]
    cases hc : s.connecting k <;> cases ha : s.active k <;> simp

/-! ## Timeout races (source lines 193 - 246)

Both `unsubscribeOnTimeout$` and `unsubscribeOnNoResponse$` follow the same
pattern: for each triggering event, `race(reset$, timeout$)` is started,
where `reset$` is the next later event with the same derived key (`take(1)`)
and `timeout$` is a delayed emission at trigger time + TTL.  `reset$` wins
exactly when a matching event arrives strictly before the delay elapses; a
reset win is filtered out of the merged output, so it produces nothing.
Triggering streams are lists of `(arrival time, payload)` pairs in arrival
order (times nondecreasing); `reset$` subscribes after the triggering event
has been emitted, so it only sees events later in the list. -/

/-- Whether the `reset$` observable of the race started at event `e` fires
before the delayed `timeout$` does: some later event with the same derived
key arrives strictly before `e.1 + TTL`. -/
def resetWins (keyOf : α → Nat) (TTL : Nat) (e : Nat × α) (later : List (Nat × α)) : Bool :=
  later.any fun e2 => keyOf e2.2 == keyOf e.2 && decide (e2.1 < e.1 + TTL)

/-- The triggering events whose race the delayed timeout wins (their reset
observable never fired in time): these and only these produce delayed
output. -/
def firingEvents (keyOf : α → Nat) (TTL : Nat) : List (Nat × α) → List (Nat × α)
  | [] => []
  | e :: rest => (if resetWins keyOf TTL e rest then [] else [e]) ++ firingEvents keyOf TTL rest

/-- Arrival times of the events whose payload derives to key `k`. -/
def keyTimes (keyOf : α → Nat) (k : Nat) (l : List (Nat × α)) : List Nat :=
  (l.filter fun e => keyOf e.2 == k).map Prod.fst

lemma firingEvents_sublist (keyOf : α → Nat) (TTL : Nat) (l : List (Nat × α)) :
    (firingEvents keyOf TTL l).Sublist l := by
  induction l with
  | nil => simp [firingEvents]
  | cons e rest ih =>
    simp only [firingEvents]
    by_cases h : resetWins keyOf TTL e rest
    · simp only [h, if_true, List.nil_append]
      exact ih.cons e
    · simp only [h, if_false, List.singleton_append]
      exact ih.cons₂ e

lemma mem_keyTimes {keyOf : α → Nat} {k t : Nat} {l : List (Nat × α)} :
    t ∈ keyTimes keyOf k l ↔ ∃ e, e ∈ l ∧ keyOf e.2 = k ∧ e.1 = t := by
  unfold keyTimes
  rw [List.mem_map]
  constructor
  · rintro ⟨e, he, rfl⟩
    rcases List.mem_filter.1 he with ⟨hel, hek⟩
    exact ⟨e, hel, by simpa using hek, rfl⟩
  · rintro ⟨e, hel, hek, rfl⟩
    exact ⟨e, List.mem_filter.2 ⟨hel, by simpa using hek⟩, rfl⟩

lemma keyTimes_sorted {keyOf : α → Nat} {k : Nat} {l : List (Nat × α)}
    (hs : l.Pairwise fun a b => a.1 ≤ b.1) : (keyTimes keyOf k l).Pairwise (· ≤ ·) :=
  (hs.filter _).map Prod.fst fun _ _ h => h

lemma le_getLast_of_sorted {l : List Nat} (hs : l.Pairwise (· ≤ ·)) {tn : Nat}
    (h : l.getLast? = some tn) : ∀ x ∈ l, x ≤ tn := by
  induction l with
  | nil => cases h
  | cons a t ih =>
    cases t with
    | nil =>
      rw [List.getLast?_singleton, Option.some.injEq] at h
      intro x hx
      rcases List.mem_singleton.1 hx with rfl
      omega
    | cons b t2 =>
      rw [List.getLast?_cons_cons] at h
      intro x hx
      rcases List.mem_cons.1 hx with rfl | hx2
      · have htn : tn ∈ b :: t2 := by
          obtain ⟨hne, rfl⟩ := List.mem_getLast?_eq_getLast h
          exact List.getLast_mem hne
        exact (List.pairwise_cons.1 hs).1 tn htn
      · exact ih (List.pairwise_cons.1 hs).2 h x hx2

/-- Core counting lemma for the retriggered races: along a chronologically
sorted trigger stream whose most recent key-`k` event arrives at `tn`,
exactly one key-`k` race fires, namely the one triggered at `tn`. -/
lemma firing_countP_last (keyOf : α → Nat) {TTL k tn : Nat} (hTTL : 0 < TTL)
    {l : List (Nat × α)}
    (hsort : l.Pairwise fun a b => a.1 ≤ b.1)
    (hlast : (keyTimes keyOf k l).getLast? = some tn) :
    (firingEvents keyOf TTL l).countP (fun e => keyOf e.2 == k && e.1 == tn) = 1 := by
  induction l with
  | nil => cases hlast
  | cons e rest ih =>
    have hsrest : rest.Pairwise fun a b => a.1 ≤ b.1 := (List.pairwise_cons.1 hsort).2
    by_cases hke : keyOf e.2 = k
    case neg =>
      have hkt : keyTimes keyOf k (e :: rest) = keyTimes keyOf k rest := by
        simp [keyTimes, List.filter_cons, hke]
      rw [hkt] at hlast
      have hrec := ih hsrest hlast
      simp only [firingEvents]
      rw [List.countP_append]
      have h0 : ((if resetWins keyOf TTL e rest then [] else [e]).countP
          fun e2 => keyOf e2.2 == k && e2.1 == tn) = 0 := by
        by_cases hr : resetWins keyOf TTL e rest <;>
          simp [hr, List.countP_cons, hke]
      omega
    case pos =>
      have hkt : keyTimes keyOf k (e :: rest) = e.1 :: keyTimes keyOf k rest := by
        simp [keyTimes, List.filter_cons, hke]
      cases hrest : keyTimes keyOf k rest with
      | nil =>
        have htn : tn = e.1 := by
          rw [hkt, hrest, List.getLast?_singleton, Option.some.injEq] at hlast
          omega
        have hnok : ∀ e2 ∈ rest, ¬ keyOf e2.2 = k := by
          intro e2 he2 hk2
          have hmem : e2.1 ∈ keyTimes keyOf k rest := mem_keyTimes.2 ⟨e2, he2, hk2, rfl⟩
          rw [hrest] at hmem
          cases hmem
        have hres : resetWins keyOf TTL e rest = false := by
          rw [resetWins, List.any_eq_false]
          intro e2 he2
          simp only [Bool.and_eq_true, beq_iff_eq, decide_eq_true_eq, not_and]
          intro hk2
          exact absurd (hk2.trans hke) (hnok e2 he2)
        have h0 : (firingEvents keyOf TTL rest).countP
            (fun e2 => keyOf e2.2 == k && e2.1 == tn) = 0 := by
          apply List.countP_eq_zero.2
          intro x hx hpa
          simp only [Bool.and_eq_true, beq_iff_eq] at hpa
          exact hnok x ((firingEvents_sublist keyOf TTL rest).subset hx) hpa.1
        simp only [firingEvents, hres, Bool.false_eq_true, if_false, List.singleton_append]
        rw [List.countP_cons, h0]
        simp [hke, htn]
      | cons t2 ts =>
        have hlast' : (keyTimes keyOf k rest).getLast? = some tn := by
          rw [hkt, hrest, List.getLast?_cons_cons] at hlast
          rw [hrest]
          exact hlast
        have hrec := ih hsrest hlast'
        simp only [firingEvents]
        rw [List.countP_append]
        have h0 : ((if resetWins keyOf TTL e rest then [] else [e]).countP
            fun e2 => keyOf e2.2 == k && e2.1 == tn) = 0 := by
          by_cases hr : resetWins keyOf TTL e rest
          · simp [hr]
          · have hrf : resetWins keyOf TTL e rest = false := by simpa using hr
            have ht2mem : t2 ∈ keyTimes keyOf k rest := by
              rw [hrest]; exact List.mem_cons_self t2 ts
            obtain ⟨e2, he2, hk2, he2t⟩ := mem_keyTimes.1 ht2mem
            simp only [resetWins, List.any_eq_false] at hrf
            have h3 := hrf e2 he2
            simp only [Bool.and_eq_true, beq_iff_eq, decide_eq_true_eq, not_and] at h3
            have h4 : ¬ e2.1 < e.1 + TTL := h3 (hk2.trans hke.symm)
            have h5 : t2 ≤ tn :=
              le_getLast_of_sorted (keyTimes_sorted hsrest) hlast' t2 ht2mem
            have hne : ¬ e.1 = tn := by omega
            simp [hr, List.countP_cons, hne]
        omega

/-! ## The idle-unsubscribe timer `unsubscribeOnTimeout$` (source lines 193 - 213)

For each `subscribe` action a race is started: `reset$` is the next later
`subscribe` whose `subscriptionMsg` derives (via `getSubsId`) to the same
subscription key, `timeout$` is `of(unsubscribe(\x7b...payload\x7d))` delayed by
`config.subscriptionTTL`.  The race output is filtered so that a winning
reset (a `subscribe` action) emits nothing.  Payloads are abstract (`π`);
`g` stands for `payload => getSubsId(payload.subscriptionMsg)`. -/

/-- One race of `unsubscribeOnTimeout$`: either the reset wins and nothing
is emitted, or the delayed `unsubscribe` carrying the same payload fires at
trigger time + TTL. -/
def timeoutRace (g : π → Nat) (TTL : Nat) (e : Nat × π) (later : List (Nat × π)) :
    List (Nat × π) :=
  if resetWins g TTL e later then [] else [(e.1 + TTL, e.2)]

/-- The full output of `unsubscribeOnTimeout$` on a trigger stream: the
merge (via `mergeMap`) of one race per `subscribe` event, each listening to
the events arriving after its trigger. -/
def unsubscribeOnTimeout (g : π → Nat) (TTL : Nat) : List (Nat × π) → List (Nat × π)
  | [] => []
  | e :: rest => timeoutRace g TTL e rest ++ unsubscribeOnTimeout g TTL rest

lemma unsubscribeOnTimeout_eq_map (g : π → Nat) (TTL : Nat) (l : List (Nat × π)) :
    unsubscribeOnTimeout g TTL l = (firingEvents g TTL l).map fun e => (e.1 + TTL, e.2) := by
  induction l with
  | nil => rfl
  | cons e rest ih =>
    simp only [unsubscribeOnTimeout, firingEvents, timeoutRace, List.map_append, ih]
    by_cases hr : resetWins g TTL e rest <;> simp [hr]

/-- C1: for every `subscribe` action processed by `connectEpic`, a race
between a reset (the next `subscribe` with the same derived subscription
key) and a delayed `unsubscribe` (delay = `subscriptionTTL`) is started; if
a matching `subscribe` arrives strictly before the TTL elapses the race
emits no `unsubscribe`, and if no matching `subscribe` arrives within the
TTL window after the most recent one, exactly one `unsubscribe` for that
key is emitted, at TTL expiry (time `tn + TTL`). -/
theorem c1_idle_unsubscribe_race (g : π → Nat) (TTL k tn : Nat) (subs : List (Nat × π))
    (hTTL : 0 < TTL)
    (hsort : subs.Pairwise fun a b => a.1 ≤ b.1)
    (hlast : (keyTimes g k subs).getLast? = some tn) :
    (∀ (pre post : List (Nat × π)) (e : Nat × π), subs = pre ++ e :: post →
        (∃ e2 ∈ post, g e2.2 = g e.2 ∧ e2.1 < e.1 + TTL) →
        timeoutRace g TTL e post = []) ∧
      (unsubscribeOnTimeout g TTL subs).countP
        (fun u => g u.2 == k && u.1 == tn + TTL) = 1 := by
  constructor
  · rintro pre post e - ⟨e2, he2, hkey, hlt⟩
    have hres : resetWins g TTL e post = true := by
      rw [resetWins, List.any_eq_true]
      exact ⟨e2, he2, by simp [hkey, hlt]⟩
    rw [timeoutRace, if_pos hres]
  · rw [unsubscribeOnTimeout_eq_map, List.countP_map]
    have hcong : ((fun u : Nat × π => g u.2 == k && u.1 == tn + TTL) ∘
        fun e : Nat × π => (e.1 + TTL, e.2)) = fun e : Nat × π => g e.2 == k && e.1 == tn := by
      funext e
      show (g e.2 == k && (e.1 + TTL == tn + TTL)) = (g e.2 == k && (e.1 == tn))
      have hb : (e.1 + TTL == tn + TTL) = (e.1 == tn) := by
        by_cases h : e.1 = tn
        · simp [h]
        · have hne : ¬ e.1 + TTL = tn + TTL := by omega
          simp [h, hne]
      rw [hb]
    rw [hcong]
    exact firing_countP_last g hTTL hsort hlast

/-- Witness for C1 at a concrete instance: subscriptions for key 5 at times
0 and 50 with TTL 100; exactly one `unsubscribe` is emitted at time 150. -/
theorem c1_idle_unsubscribe_race_witness :
    (unsubscribeOnTimeout (fun n : Nat => n) 100 [(0, 5), (50, 5)]).countP
      (fun u => (fun n : Nat => n) u.2 == 5 && u.1 == 50 + 100) = 1 :=
  (c1_idle_unsubscribe_race (fun n : Nat => n) 100 5 50 [(0, 5), (50, 5)]
    (by decide) (by decide) (by decide)).2

/-! ## The unresponsive-channel recovery timer `unsubscribeOnNoResponse$`
(source lines 215 - 246)

For each `messageReceived` action a race is started: `reset$` is the next
later `messageReceived` with the same subscription key, `timeout$` is
`of(unsubscribe(action), subscribe(action))` delayed by
`config.subscriptionUnresponsiveTTL`, where `action` is rebuilt from the
input looked up in subscription state (`state.ws.subscriptions[key]?.input
|| \x7b\x7d`), the provider subscribe message `wsHandler.subscribe(input)` and the
connection info.  A winning reset (a `messageReceived` action) is filtered
out of the merged output.  Trigger events are `(arrival time, subscription
key)` pairs. -/

/-- The compound action payload rebuilt by `unsubscribeOnNoResponse$` for a
subscription key: looked-up input (defaulted to the empty object),
provider-built subscribe message, and connection info. -/
structure RecyclePayload (ι σ : Type) where
  input : JVal ι
  subscriptionMsg : σ
  connKey : Nat
  url : String
  deriving DecidableEq, Repr

inductive RecycleAction (ι σ : Type) where
  | unsub (p : RecyclePayload ι σ)
  | sub (p : RecyclePayload ι σ)
  deriving DecidableEq, Repr

/-- The `action` object built at source lines 232 - 236: `input` is
`state.ws.subscriptions[subscriptionKey]?.input || \x7b\x7d`, `subscriptionMsg`
is `wsHandler.subscribe(input)`, `connectionInfo` carries the connection
key and url. -/
def mkRecyclePayload (wsSubscribe : JVal ι → σ) (lookup : Nat → Option ι)
    (ck : Nat) (url : String) (k : Nat) : RecyclePayload ι σ :=
  { input := jsOr (jvalOf (lookup k)) .emptyObj,
    subscriptionMsg := wsSubscribe (jsOr (jvalOf (lookup k)) .emptyObj),
    connKey := ck, url := url }

/-- One race of `unsubscribeOnNoResponse$`: either the reset wins and
nothing is emitted, or at trigger time + TTL the delayed `unsubscribe` is
emitted immediately followed by the delayed `subscribe`, both carrying the
same rebuilt payload. -/
def noResponseRace (wsSubscribe : JVal ι → σ) (lookup : Nat → Option ι)
    (ck : Nat) (url : String) (TTL : Nat) (e : Nat × Nat) (later : List (Nat × Nat)) :
    List (Nat × RecycleAction ι σ) :=
  if resetWins (fun k2 : Nat => k2) TTL e later then []
  else
    [(e.1 + TTL, .unsub (mkRecyclePayload wsSubscribe lookup ck url e.2)),
     (e.1 + TTL, .sub (mkRecyclePayload wsSubscribe lookup ck url e.2))]

/-- The full output of `unsubscribeOnNoResponse$` on a trigger stream of
`messageReceived` events: one race per message, each listening to the
messages arriving after its trigger. -/
def unsubscribeOnNoResponse (wsSubscribe : JVal ι → σ) (lookup : Nat → Option ι)
    (ck : Nat) (url : String) (TTL : Nat) :
    List (Nat × Nat) → List (Nat × RecycleAction ι σ)
  | [] => []
  | e :: rest =>
      noResponseRace wsSubscribe lookup ck url TTL e rest ++
        unsubscribeOnNoResponse wsSubscribe lookup ck url TTL rest

lemma unsubscribeOnNoResponse_eq_flatMap (wsSubscribe : JVal ι → σ)
    (lookup : Nat → Option ι) (ck : Nat) (url : String) (TTL : Nat)
    (l : List (Nat × Nat)) :
    unsubscribeOnNoResponse wsSubscribe lookup ck url TTL l =
      (firingEvents (fun k2 : Nat => k2) TTL l).flatMap fun e =>
        [(e.1 + TTL, RecycleAction.unsub (mkRecyclePayload wsSubscribe lookup ck url e.2)),
         (e.1 + TTL, RecycleAction.sub (mkRecyclePayload wsSubscribe lookup ck url e.2))] := by
  induction l with
  | nil => rfl
  | cons e rest ih =>
    simp only [unsubscribeOnNoResponse, firingEvents, noResponseRace, List.flatMap_append, ih]
    by_cases hr : resetWins (fun k2 : Nat => k2) TTL e rest <;> simp [hr]

/-- C2: for every `messageReceived` action for a subscription key, a race
between a reset (the next `messageReceived` for the same key) and a delayed
compound timeout is started; if a new message for that key arrives before
`subscriptionUnresponsiveTTL` elapses, the timer is cancelled and the race
emits nothing; otherwise the race emits, at trigger time + TTL, an
`unsubscribe` immediately followed by a `subscribe` sharing one payload
rebuilt from the same logical input — and along the whole stream exactly
one race fires per idle period (for the most recent key-`k` message,
exactly one). -/
theorem c2_unresponsive_recycle_race (wsSubscribe : JVal ι → σ) (lookup : Nat → Option ι)
    (ck : Nat) (url : String) (TTL k tn : Nat) (msgs : List (Nat × Nat))
    (hTTL : 0 < TTL)
    (hsort : msgs.Pairwise fun a b => a.1 ≤ b.1)
    (hlast : (keyTimes (fun k2 : Nat => k2) k msgs).getLast? = some tn) :
    (∀ (pre post : List (Nat × Nat)) (e : Nat × Nat), msgs = pre ++ e :: post →
        (∃ e2 ∈ post, e2.2 = e.2 ∧ e2.1 < e.1 + TTL) →
        noResponseRace (ι := ι) (σ := σ) wsSubscribe lookup ck url TTL e post = []) ∧
      (∀ (e : Nat × Nat) (post : List (Nat × Nat)),
        resetWins (fun k2 : Nat => k2) TTL e post = false →
        noResponseRace wsSubscribe lookup ck url TTL e post =
          [(e.1 + TTL, RecycleAction.unsub (mkRecyclePayload wsSubscribe lookup ck url e.2)),
           (e.1 + TTL, RecycleAction.sub (mkRecyclePayload wsSubscribe lookup ck url e.2))]) ∧
      unsubscribeOnNoResponse wsSubscribe lookup ck url TTL msgs =
        ((firingEvents (fun k2 : Nat => k2) TTL msgs).flatMap fun e =>
          [(e.1 + TTL, RecycleAction.unsub (mkRecyclePayload wsSubscribe lookup ck url e.2)),
           (e.1 + TTL, RecycleAction.sub (mkRecyclePayload wsSubscribe lookup ck url e.2))]) ∧
      (firingEvents (fun k2 : Nat => k2) TTL msgs).countP
        (fun e => (fun k2 : Nat => k2) e.2 == k && e.1 == tn) = 1 := by
  refine ⟨?_, ?_, ?_, ?_⟩
  · rintro pre post e - ⟨e2, he2, hkey, hlt⟩
    have hres : resetWins (fun k2 : Nat => k2) TTL e post = true := by
      rw [resetWins, List.any_eq_true]
      exact ⟨e2, he2, by simp [hkey, hlt]⟩
    rw [noResponseRace, if_pos hres]
  · intro e post hres
    rw [noResponseRace, if_neg (by simp [hres])]
  · exact unsubscribeOnNoResponse_eq_flatMap wsSubscribe lookup ck url TTL msgs
  · exact firing_countP_last (fun k2 : Nat => k2) hTTL hsort hlast

/-- Witness for C2 at a concrete instance: messages for key 7 at times 0
and 50 with unresponsive TTL 100; exactly one recycle race fires, the one
triggered at time 50. -/
theorem c2_unresponsive_recycle_race_witness :
    (firingEvents (fun k2 : Nat => k2) 100 [(0, 7), (50, 7)]).countP
      (fun e => (fun k2 : Nat => k2) e.2 == 7 && e.1 == 50) = 1 :=
  (c2_unresponsive_recycle_race (ι := Nat) (σ := Nat) (fun _ => 0) (fun _ => none)
    0 "" 100 7 50 [(0, 7), (50, 7)] (by decide) (by decide) (by decide)).2.2.2

/-! ## Subscription multiplexer (source lines 103 - 160)

Inside `multiplexSubscriptions$`, each `subscribe` request opens a
multiplexed logical subscription on the shared socket whose message filter
is the third argument of `wsSubject.multiplex` (source lines 117 - 128): an
error-tagged message is logged and rejected, otherwise the message belongs
to the subscription iff `getSubsId(wsHandler.subsFromMessage(message))`
equals the derived subscription key.  Each accepted message is paired with
the latest state: if the subscription is not yet active a `subscribed`
action is emitted immediately followed by `messageReceived`, otherwise only
`messageReceived` (source lines 130 - 138); the reducer (spec 4.2: the
subscription is "marked active once it starts receiving matching
messages") flips the active flag on `subscribed`, so later messages see an
active subscription.  `isErr`, `subsFrom` are the provider capabilities,
`g` is `getSubsId`. -/

/-- Embedding of the `wsSubject.multiplex` message filter
(source lines 117 - 128). -/
def multiplexMsgFilter (isErr : μ → Bool) (subsFrom : μ → σ) (g : σ → Nat)
    (sk : Nat) (m : μ) : Bool :=
  if isErr m then false
  else g (subsFrom m) == sk

inductive MxAction (μ : Type) where
  | subscribedA
  | messageReceivedA (m : μ)
  | unsubscribedA
  | connectionErrorA (key : Nat) (url message : String)
  deriving DecidableEq, Repr

/-- The actions emitted by one logical multiplexed subscription for a
stream of raw socket messages, starting from the given active flag
(source lines 130 - 138). -/
def multiplexRun (isErr : μ → Bool) (subsFrom : μ → σ) (g : σ → Nat) (sk : Nat) :
    Bool → List μ → List (MxAction μ)
  | _, [] => []
  | active, m :: ms =>
      if multiplexMsgFilter isErr subsFrom g sk m then
        (if active then [.messageReceivedA m] else [.subscribedA, .messageReceivedA m]) ++
          multiplexRun isErr subsFrom g sk true ms
      else multiplexRun isErr subsFrom g sk active ms

/-- C9: a subscription is marked active only upon receiving its first
matching message: when a matching non-error message arrives for a
subscription whose state is not active, the multiplexer emits a
`subscribed` action immediately followed by a `messageReceived` action, and
when the subscription is already active it emits only `messageReceived`. -/
theorem c9_subscribed_on_first_matching_message (isErr : μ → Bool) (subsFrom : μ → σ)
    (g : σ → Nat) (sk : Nat) (m : μ) (ms : List μ)
    (hm : multiplexMsgFilter isErr subsFrom g sk m = true) :
    multiplexRun isErr subsFrom g sk false (m :: ms) =
        .subscribedA :: .messageReceivedA m :: multiplexRun isErr subsFrom g sk true ms ∧
      multiplexRun isErr subsFrom g sk true (m :: ms) =
        .messageReceivedA m :: multiplexRun isErr subsFrom g sk true ms := by
  constructor <;> simp [multiplexRun, hm]

/-- Witness for C9 at a concrete instance: with a provider that never
flags errors, identity key extraction and subscription key 3, message 3
activates the idle subscription and is delivered behind `subscribed`. -/
theorem c9_subscribed_on_first_matching_message_witness :
    multiplexRun (fun _ : Nat => false) (fun n : Nat => n) (fun n : Nat => n) 3 false [3] =
        .subscribedA :: .messageReceivedA 3 :: multiplexRun (fun _ : Nat => false)
          (fun n : Nat => n) (fun n : Nat => n) 3 true [] ∧
      multiplexRun (fun _ : Nat => false) (fun n : Nat => n) (fun n : Nat => n) 3 true [3] =
        .messageReceivedA 3 :: multiplexRun (fun _ : Nat => false)
          (fun n : Nat => n) (fun n : Nat => n) 3 true [] :=
  c9_subscribed_on_first_matching_message (fun _ => false) (fun n => n) (fun n => n)
    3 3 [] (by decide)

/-! ## Cache writer `withCache$` (source lines 166 - 189)

`withCache$` filters `messageReceived` actions through the provider
`wsHandler.filter`, then for each one: looks up the originating input from
subscription state (`state.ws.subscriptions[key]?.input || \x7b\x7d`, warning
when the result is falsy — which it never is), transforms the message with
`wsHandler.toResponse`, returns early when there is no response, otherwise
writes the response to the shared cache keyed by a copy of the input whose
`data.maxAge` is forced to `-1` (and `debug.ws` set); any thrown error is
caught and logged.  The trailing `filter(() => false)` keeps the writer
from emitting any action.  `toResponse` is modelled as fallible
(`Except.error` = a thrown exception, `Except.ok none` = a falsy response);
`cacheSetFails` models whether the awaited cache write itself throws. -/

/-- The `wsResponse` object used as cache key (source lines 177 - 181):
the looked-up input with `maxAge` forced to `-1` and a ws debug marker. -/
structure WsResponseShape (ι : Type) where
  input : JVal ι
  maxAge : Int
  debugWs : Bool
  deriving DecidableEq, Repr

/-- The observable outcome of one `withCache$` body run: attempted cache
writes (key and cached response value), whether the missing-subscription
warning was logged, whether the catch-all error path was logged. -/
structure CacheOutcome (ι ρ : Type) where
  writes : List (WsResponseShape ι × ρ)
  warnLogged : Bool
  errorLogged : Bool
  deriving DecidableEq, Repr

/-- Embedding of the `withCache$` mergeMap body (source lines 169 - 186)
for one `messageReceived` action carrying message `m` and subscription key
`k`. -/
def cacheBody (toResponse : μ → Except String (Option ρ)) (cacheSetFails : Bool)
    (lookup : Nat → Option ι) (m : μ) (k : Nat) : CacheOutcome ι ρ :=
  let input := jsOr (jvalOf (lookup k)) JVal.emptyObj
  let warnLogged := !input.truthy
  match toResponse m with
  | .error _ => { writes := [], warnLogged := warnLogged, errorLogged := true }
  | .ok none => { writes := [], warnLogged := warnLogged, errorLogged := false }
  | .ok (some r) =>
      { writes := [({ input := input, maxAge := -1, debugWs := true }, r)],
        warnLogged := warnLogged, errorLogged := cacheSetFails }

/-- All cache writes attempted by `withCache$` over a stream of
`messageReceived` actions (message, subscription key). -/
def withCacheWrites (flt : μ → Bool) (toResponse : μ → Except String (Option ρ))
    (cacheSetFails : Bool) (lookup : Nat → Option ι) (acts : List (μ × Nat)) :
    List (WsResponseShape ι × ρ) :=
  (acts.filter fun a => flt a.1).flatMap fun a =>
    (cacheBody toResponse cacheSetFails lookup a.1 a.2).writes

/-- The actions `withCache$` emits into the main action stream: the
processed actions go through the trailing `filter(() => false)`
(source line 188). -/
def withCacheEmitted (flt : μ → Bool) (acts : List (μ × Nat)) : List (μ × Nat) :=
  (acts.filter fun a => flt a.1).filter fun _ => false

/-- The `messageReceived` payloads (message, subscription key) among a list
of emitted actions: the input consumed by `withCache$` via
`message$ = action$.pipe(filter(messageReceived.match))`. -/
def messagesOf (sk : Nat) : List (MxAction μ) → List (μ × Nat)
  | [] => []
  | .messageReceivedA m :: rest => (m, sk) :: messagesOf sk rest
  | _ :: rest => messagesOf sk rest

/-- C5: for every raw message the provider `isError` tags, the multiplex
filter rejects it: it is never matched to a subscription key, produces
neither a `subscribed` nor a `messageReceived` action (so an unactivated
subscription stays unactivated — the stream is exactly as if the message
had never arrived), and consequently never triggers a cache write. -/
theorem c5_error_messages_rejected (isErr : μ → Bool) (subsFrom : μ → σ) (g : σ → Nat)
    (sk : Nat) (m : μ) (flt : μ → Bool) (toResponse : μ → Except String (Option ρ))
    (cacheSetFails : Bool) (lookup : Nat → Option ι)
    (hm : isErr m = true) :
    multiplexMsgFilter isErr subsFrom g sk m = false ∧
      (∀ (active : Bool) (ms1 ms2 : List μ),
        multiplexRun isErr subsFrom g sk active (ms1 ++ m :: ms2) =
          multiplexRun isErr subsFrom g sk active (ms1 ++ ms2)) ∧
      (∀ (active : Bool) (ms1 ms2 : List μ),
        withCacheWrites flt toResponse cacheSetFails lookup
            (messagesOf sk (multiplexRun isErr subsFrom g sk active (ms1 ++ m :: ms2))) =
          withCacheWrites flt toResponse cacheSetFails lookup
            (messagesOf sk (multiplexRun isErr subsFrom g sk active (ms1 ++ ms2)))) := by
  have hflt : multiplexMsgFilter isErr subsFrom g sk m = false := by
    simp [multiplexMsgFilter, hm]
  have hrun : ∀ (active : Bool) (ms1 ms2 : List μ),
      multiplexRun isErr subsFrom g sk active (ms1 ++ m :: ms2) =
        multiplexRun isErr subsFrom g sk active (ms1 ++ ms2) := by
    intro active ms1
    induction ms1 generalizing active with
    | nil =>
      intro ms2
      simp only [List.nil_append, multiplexRun, hflt, Bool.false_eq_true, if_false]
    | cons m1 t ih =>
      intro ms2
      simp only [List.cons_append, multiplexRun]
      by_cases h1 : multiplexMsgFilter isErr subsFrom g sk m1 = true <;>
        simp [h1, ih]
  exact ⟨hflt, hrun, fun active ms1 ms2 => by rw [hrun]⟩

/-- Witness for C5 at a concrete instance: a provider that flags every
message as an error; message 0 is rejected by the multiplex filter. -/
theorem c5_error_messages_rejected_witness :
    multiplexMsgFilter (fun _ : Nat => true) (fun n : Nat => n) (fun n : Nat => n) 0 0 = false :=
  (c5_error_messages_rejected (ι := Nat) (ρ := Nat) (fun _ : Nat => true) (fun n => n)
    (fun n => n) 0 0 (fun _ => true) (fun _ => Except.ok none) false (fun _ => none)
    (by decide)).1

/-! ## The outer error handler of `multiplexSubscriptions$`
(source lines 154 - 159)

`catchError` sits at the end of `multiplexSubscriptions$`: when an error
terminates the multiplexed stream, it is logged and the stream is replaced
by `of(connectionError(\x7bconnectionInfo: \x7bkey, url\x7d, message\x7d))`, which
emits that single event and completes — no later `subscribe` action is
processed until a reconnect creates a new epic stream.  The input trace
interleaves accepted messages with a possible stream error. -/

/-- Embedding of `multiplexSubscriptions$` with its trailing `catchError`:
messages are processed as in `multiplexRun`; the first stream error is
caught and replaced by a single terminal `connectionError` event carrying
the connection key, url and error message, and the rest of the trace is
never processed. -/
def multiplexCatch (isErr : μ → Bool) (subsFrom : μ → σ) (g : σ → Nat)
    (sk ck : Nat) (url : String) : Bool → List (Except String μ) → List (MxAction μ)
  | _, [] => []
  | _, .error e :: _ => [.connectionErrorA ck url e]
  | active, .ok m :: ms =>
      if multiplexMsgFilter isErr subsFrom g sk m then
        (if active then [.messageReceivedA m] else [.subscribedA, .messageReceivedA m]) ++
          multiplexCatch isErr subsFrom g sk ck url true ms
      else multiplexCatch isErr subsFrom g sk ck url active ms

def isConnErrA : MxAction μ → Bool
  | .connectionErrorA _ _ _ => true
  | _ => false

lemma multiplexRun_no_connErr (isErr : μ → Bool) (subsFrom : μ → σ) (g : σ → Nat)
    (sk : Nat) (active : Bool) (ms : List μ) :
    (multiplexRun isErr subsFrom g sk active ms).countP isConnErrA = 0 := by
  induction ms generalizing active with
  | nil => rfl
  | cons m t ih =>
    simp only [multiplexRun]
    by_cases h1 : multiplexMsgFilter isErr subsFrom g sk m = true
    · cases active <;> simp [h1, List.countP_append, List.countP_cons, isConnErrA, ih]
    · simp [h1, ih]

/-- C8: for every error terminating the multiplexed subscription stream,
the error is caught (the model stays a total function on traces — nothing
escapes as an exception), exactly one `connectionError` event carrying the
connection key, url and the error message is emitted, and nothing after the
error — in particular no subscribe attempt — is processed on that stream. -/
theorem c8_connection_error_terminal (isErr : μ → Bool) (subsFrom : μ → σ) (g : σ → Nat)
    (sk ck : Nat) (url : String) (active : Bool) (pre : List μ) (e : String)
    (post : List (Except String μ)) :
    multiplexCatch isErr subsFrom g sk ck url active (pre.map .ok ++ .error e :: post) =
        multiplexRun isErr subsFrom g sk active pre ++ [.connectionErrorA ck url e] ∧
      (multiplexCatch isErr subsFrom g sk ck url active
          (pre.map .ok ++ .error e :: post)).countP isConnErrA = 1 := by
  have heq : ∀ (active : Bool) (pre : List μ),
      multiplexCatch isErr subsFrom g sk ck url active (pre.map .ok ++ .error e :: post) =
        multiplexRun isErr subsFrom g sk active pre ++ [.connectionErrorA ck url e] := by
    intro active pre
    induction pre generalizing active with
    | nil => rfl
    | cons m t ih =>
      simp only [List.map_cons, List.cons_append, multiplexCatch, multiplexRun]
      by_cases h1 : multiplexMsgFilter isErr subsFrom g sk m = true <;>
        simp [h1, ih]
  refine ⟨heq active pre, ?_⟩
  rw [heq active pre, List.countP_append, multiplexRun_no_connErr]
  rfl

lemma cacheBody_writes_indep (toResponse : μ → Except String (Option ρ))
    (lookup : Nat → Option ι) (m : μ) (k : Nat) :
    (cacheBody toResponse true lookup m k).writes =
      (cacheBody toResponse false lookup m k).writes := by
  cases h : toResponse m with
  | error e => simp [cacheBody, h]
  | ok o => cases o <;> simp [cacheBody, h]

/-- C6 counterexample: a message the provider filter accepts but whose
`toResponse` transform yields no response (`if (!response) return action`,
source line 174) produces zero cache writes, refuting "exactly one cache
write is attempted for every filter-accepted message". -/
theorem c6_exactly_one_write_counterexample :
    (fun _ : Nat => true) 0 = true ∧
      withCacheWrites (ι := Nat) (ρ := Nat) (fun _ : Nat => true)
        (fun _ => Except.ok none) false (fun _ => some 9) [(0, 0)] = [] :=
  ⟨rfl, rfl⟩

/-- C6 (amended): for every `messageReceived` action whose message the
provider filter accepts and whose `toResponse` transform yields a response,
exactly one cache write is attempted, keyed by the input looked up from
subscription state (defaulted to the empty object) with `maxAge` forced to
`-1`; at most one write is ever attempted per message, and a failing cache
set changes nothing about the attempts (no retry). -/
theorem c6_cache_write_amended (flt : μ → Bool) (toResponse : μ → Except String (Option ρ))
    (cacheSetFails : Bool) (lookup : Nat → Option ι) (m : μ) (k : Nat) (r : ρ)
    (hf : flt m = true) (hr : toResponse m = .ok (some r)) :
    withCacheWrites flt toResponse cacheSetFails lookup [(m, k)] =
        [({ input := jsOr (jvalOf (lookup k)) JVal.emptyObj, maxAge := -1,
            debugWs := true }, r)] ∧
      (∀ (m2 : μ) (k2 : Nat),
        (withCacheWrites flt toResponse cacheSetFails lookup [(m2, k2)]).length ≤ 1) ∧
      withCacheWrites flt toResponse true lookup [(m, k)] =
        withCacheWrites flt toResponse false lookup [(m, k)] := by
  refine ⟨?_, ?_, ?_⟩
  · simp [withCacheWrites, hf, cacheBody, hr]
  · intro m2 k2
    by_cases h2 : flt m2 = true
    · cases h3 : toResponse m2 with
      | error e => simp [withCacheWrites, h2, cacheBody, h3]
      | ok o => cases o <;> simp [withCacheWrites, h2, cacheBody, h3]
    · simp [withCacheWrites, h2]
  · simp [withCacheWrites, hf, cacheBody_writes_indep]

/-- Witness for C6 (amended) at a concrete instance: filter accepts message
0, the transform yields response 5, the subscription state holds input 9;
exactly the one expected write is attempted. -/
theorem c6_cache_write_amended_witness :
    withCacheWrites (ι := Nat) (fun _ : Nat => true) (fun _ : Nat => Except.ok (some 5))
        false (fun _ => some 9) [(0, 0)] =
      [({ input := jsOr (jvalOf (some 9)) JVal.emptyObj, maxAge := -1,
          debugWs := true }, 5)] :=
  (c6_cache_write_amended (fun _ : Nat => true) (fun _ : Nat => Except.ok (some 5))
    false (fun _ => some 9) 0 0 5 rfl rfl).1

/-- C7 (code evaluation): in `withCache$` the subscription-state lookup is
`state.ws.subscriptions[key]?.input || \x7b\x7d` (source line 171), so the value
tested by `if (!input) logger.warn(...)` (source line 172) is always truthy
and the lookup-miss warning is dead code — a miss is silently defaulted to
the empty object, never logged.  A transform/write error is logged and
swallowed (the outcome is still a value, the stream continues), and the
writer emits no actions of its own into the main stream. -/
theorem c7_lookup_miss_never_logged :
    (∀ (toResponse : Nat → Except String (Option Nat)) (cacheSetFails : Bool)
        (lookup : Nat → Option Nat) (m k : Nat),
        (cacheBody (ι := Nat) toResponse cacheSetFails lookup m k).warnLogged = false) ∧
      cacheBody (ι := Nat) (ρ := Nat) (fun _ : Nat => Except.error "boom") false
          (fun _ => none) 0 0 =
        { writes := [], warnLogged := false, errorLogged := true } ∧
      (∀ (flt : Nat → Bool) (acts : List (Nat × Nat)), withCacheEmitted flt acts = []) := by
  refine ⟨?_, rfl, ?_⟩
  · intro toResponse cacheSetFails lookup m k
    cases h : toResponse m with
    | error e => cases hl : lookup k <;> simp [cacheBody, h, hl, jsOr, jvalOf, JVal.truthy]
    | ok o =>
      cases o <;> cases hl : lookup k <;>
        simp [cacheBody, h, hl, jsOr, jvalOf, JVal.truthy]
  · intro flt acts
    simp [withCacheEmitted]

/-! ## Termination of a logical subscription stream
(source lines 139 - 152 and 250 - 265)

Each multiplexed subscription stream is cut by
`takeUntil(merge(unsubscribe-with-same-key, disconnected-for-connection))`
and closed with `endWith(unsubscribed(payload))`.  The surrounding `ws$`
stream is itself cut by `takeUntil(disconnected-for-connection)` — and its
notifier was subscribed when the epic stream was built, before any inner
subscription existed, so on a `disconnected` action the outer `takeUntil`
completes first and the terminal `unsubscribed` produced by the inner
`endWith` in reaction to that same action is never delivered (the source
marks this line with "TODO: not seeing unsubscribe events because of
this").  Actions are indexed by their position in the dispatch order; an
event emitted in reaction to the action at position i survives the outer
cut only when i is strictly below the position of the first matching
`disconnected`. -/

inductive C4Action (σ : Type) where
  | subscribeA (m : σ)
  | unsubscribeA (m : σ)
  | disconnectedA (ck : Nat)
  | otherA
  deriving DecidableEq, Repr

def isDisconnectedFor (ck : Nat) : C4Action σ → Bool
  | .disconnectedA k => k == ck
  | _ => false

/-- The merged `takeUntil` notifier of the inner subscription stream:
an `unsubscribe` whose `subscriptionMsg` derives to the same subscription
key, or a `disconnected` for the parent connection key. -/
def isSubTerminator (g : σ → Nat) (sk ck : Nat) : C4Action σ → Bool
  | .unsubscribeA msg => g msg == sk
  | .disconnectedA k => k == ck
  | _ => false

/-- Position of the first `disconnected` for the connection key: where the
outer `ws$` stream completes. -/
def connTermIdx (ck : Nat) (acts : List (C4Action σ)) : Option Nat :=
  acts.findIdx? (isDisconnectedFor ck)

/-- Position of the first terminator of the inner subscription stream:
where the inner stream completes and `endWith` emits `unsubscribed`. -/
def subTermIdx (g : σ → Nat) (sk ck : Nat) (acts : List (C4Action σ)) : Option Nat :=
  acts.findIdx? (isSubTerminator g sk ck)

/-- Whether the terminal `unsubscribed` event of the inner stream reaches
the action stream: the inner stream must terminate, and its terminator must
lie strictly before the outer cut (the outer notifier, subscribed earlier,
fires first on the same action). -/
def deliveredUnsubscribed (g : σ → Nat) (sk ck : Nat) (acts : List (C4Action σ)) : Bool :=
  match subTermIdx g sk ck acts, connTermIdx ck acts with
  | some i, some c => decide (i < c)
  | some _, none => true
  | none, _ => false

/-- C4 (code evaluation at the failing input): on an explicit `unsubscribe`
the terminal `unsubscribed` is delivered, but on a `disconnected` for the
parent connection the inner stream terminates (the terminator exists at
position 0) while the outer `ws$` cut swallows the terminal `unsubscribed`,
so it never reaches the action stream — refuting "in both termination cases
a terminal `unsubscribed` event is emitted into the action stream". -/
theorem c4_unsubscribed_swallowed_on_disconnect :
    deliveredUnsubscribed (fun n : Nat => n) 0 0 [C4Action.unsubscribeA 0] = true ∧
      subTermIdx (fun n : Nat => n) 0 0 [C4Action.disconnectedA 0] = some 0 ∧
      deliveredUnsubscribed (fun n : Nat => n) 0 0 [C4Action.disconnectedA 0] = false := by
  refine ⟨rfl, rfl, rfl⟩

end WsEpics

